import Mathlib

/-!
Verification development for the tinysol virtual machine and lowering
compiler (`src/tinyvm.rs`): a shallow embedding of the word stack, the
opcode interpreter, the contract model with its selector-keyed dispatch,
and the AST-to-bytecode lowering pass, together with theorems settling
the specification claims about them.

Conventions of the embedding:
* `U256` machine words become `Nat`; the only narrowing casts in the
  source (`usize as u8` and `U256::as_usize`) become explicit `% 256`
  and `% 2 ^ 64`.
* Rust panics (unchecked `unwrap`, out-of-bounds slice indexing,
  unsigned-subtraction overflow) become `Option.none` / `.crash`
  outcomes; a Rust function that cannot panic stays total.
* `HashMap` becomes an association list whose `insert` replaces the
  value of an existing key and appends fresh keys, so that `length`
  counts distinct keys exactly as `HashMap::len` does.
* The `calldata` field of `VM` is omitted: the interpreter stores it but
  never reads it.
-/

namespace TinySol

/-- A 256-bit EVM-style machine word (`ethnum::U256`), embedded as `Nat`. -/
abbrev Word := Nat

/-- Association-list model of `std::collections::HashMap`. -/
abbrev AList (α β : Type) := List (α × β)

/-- Model of `HashMap::get`: the value stored at key `k`, if present. -/
def AList.get {α β : Type} [DecidableEq α] : AList α β → α → Option β
  | [], _ => none
  | (k', v) :: rest, k => if k' = k then some v else AList.get rest k

/-- Model of `HashMap::insert`: replace the value of an existing key, otherwise
append the new binding. -/
def AList.insert {α β : Type} [DecidableEq α] : AList α β → α → β → AList α β
  | [], k, v => [(k, v)]
  | (k', v') :: rest, k, v =>
      if k' = k then (k', v) :: rest else (k', v') :: AList.insert rest k v

/-! ## The external AST (`crate::solidity::grammar`)

Modelled from the spec: the grammar module is an external collaborator
of the shown core (spec §6 — "a parsed source tree supplied by an
external parser"), so its types are reconstructed from the spec's input
boundary together with the exact constructor shapes that `tinyvm.rs`
pattern-matches.  Source-location/token payloads that the core never
inspects are embedded as `Unit`. -/

/-- A source-level identifier (only its `name` is ever read). -/
structure Identifier where
  name : String
deriving DecidableEq, Repr

/-- Solidity type syntax; the core only distinguishes `bool`
(`Type::Bool(_)`) from every other type (matched by `_`). -/
inductive Ty where
  | Bool (u : Unit)
  | OtherTy (u : Unit)
deriving DecidableEq, Repr

/-- Expression AST: exactly the variants `handle_expression` matches on.
The source names the last variant `Expression::Type`; `Type` is a
reserved word in Lean, hence `TypeExpr`. -/
inductive Expression where
  | BoolLiteral (val : Bool)
  | Variable (identifier : Identifier)
  | Assign (left : Expression) (op : Unit) (right : Expression)
  | Not (op : Unit) (expr : Expression)
  | TypeExpr (ty : Ty)
deriving DecidableEq, Repr

/-- A function parameter; only its `ty` field is ever read (`..` in the
source patterns). -/
structure Parameter where
  ty : Expression
deriving DecidableEq, Repr

/-- Model of `ParameterList::Param((), Option<Parameter>, ())`. -/
inductive ParameterList where
  | Param (u1 : Unit) (param : Option Parameter) (u2 : Unit)
deriving DecidableEq, Repr

/-- Model of `FunctionReturnParams::ParameterList(_, ParameterList)`. -/
inductive FunctionReturnParams where
  | ParameterList (u : Unit) (pl : ParameterList)
deriving DecidableEq, Repr

/-- Grammar-level visibility keyword. -/
inductive Visibility where
  | Public (u : Unit)
  | Private (u : Unit)
  | Internal (u : Unit)
  | External (u : Unit)
deriving DecidableEq, Repr

/-- Grammar-level mutability keyword. -/
inductive Mutability where
  | Constant (u : Unit)
  | Payable (u : Unit)
  | View (u : Unit)
  | Pure (u : Unit)
deriving DecidableEq, Repr

/-- Model of `FunctionAttribute`: either a visibility or a mutability keyword. -/
inductive FunctionAttribute where
  | Visibility (v : Visibility)
  | Mutability (m : Mutability)
deriving DecidableEq, Repr

/-- Statement AST: exactly the variants `handle_statement` matches on. -/
inductive Statement where
  | Expression (expr : Expression) (u : Unit)
  | Return (u1 : Unit) (expr : Option Expression) (u2 : Unit)
deriving DecidableEq, Repr

/-- Model of `ContractPart`: the three member shapes of a contract definition. -/
inductive ContractPart where
  | FunctionDefinition (u1 : Unit) (name : String) (params : ParameterList)
      (attrs : List (Option FunctionAttribute))
      (retParams : Option FunctionReturnParams) (u2 : Unit)
      (statement : Option Statement) (u3 : Unit)
  | VariableDefinition (ty : Ty) (visibility : Unit) (name : String) (u : Unit)
  | ConstructorDefinition (u1 : Unit) (params : ParameterList)
      (attrs : List (Option FunctionAttribute)) (u2 : Unit)
      (statement : Option Statement) (u3 : Unit)
deriving DecidableEq, Repr

/-- Top-level unit part; only contract definitions are handled, all other
shapes fall to the `_` arm of `handle_source_unit_part`. -/
inductive SourceUnitPart where
  | ContractDefinition (u1 : Unit) (name : String) (u2 : Unit)
      (parts : List ContractPart) (u3 : Unit)
  | OtherPart (u : Unit)
deriving DecidableEq, Repr

/-- The parsed source tree handed to `create_contracts`. -/
structure SourceUnit where
  parts : List SourceUnitPart
deriving DecidableEq, Repr

/-! ## Word stack (`struct Stack`) -/

/-- Model of `Stack { stackarr: [U256; 1024], top: usize }`. -/
structure Stack where
  stackarr : List Word
  top : Nat
deriving DecidableEq, Repr

/-- Model of `Stack::new()`: 1024 zero words, `top = 0`. -/
def Stack.new : Stack :=
  { stackarr := List.replicate 1024 0, top := 0 }

/-- Model of `Stack::push32`: stores at `top` and increments only while
`top < 1024`; **silently does nothing** when the stack is full (the
source's `if` has no `else`). -/
def Stack.push32 (s : Stack) (value : Word) : Stack :=
  if s.top < 1024 then
    { stackarr := s.stackarr.set s.top value, top := s.top + 1 }
  else
    s

/-- Model of `Stack::push1`: zero-extends the byte and pushes it. -/
def Stack.push1 (s : Stack) (value : Nat) : Stack :=
  s.push32 value

/-- Model of `Stack::pop`: `None` on an empty stack, otherwise the top word and
the stack with `top` decremented (the array itself is not cleared). -/
def Stack.pop (s : Stack) : Option (Word × Stack) :=
  if s.top = 0 then
    none
  else
    some (s.stackarr.getD (s.top - 1) 0, { s with top := s.top - 1 })

/-- Model of `Stack::swap`: `self.stackarr.swap(self.top - 1, self.top - 2)` with
no bounds check.  With `top < 2` the unsigned subtraction wraps and the
slice swap panics; with `top` beyond the array it panics outright — both
panics are embedded as `none`. -/
def Stack.swap (s : Stack) : Option Stack :=
  if 2 ≤ s.top ∧ s.top ≤ s.stackarr.length then
    let a := s.stackarr
    some { s with stackarr := (a.set (s.top - 1) (a.getD (s.top - 2) 0)).set (s.top - 2) (a.getD (s.top - 1) 0) }
  else
    none

/-! ## Instruction set and execution engine -/

/-- Model of `enum OP`: the closed opcode set. -/
inductive OP where
  | PUSH32 (w : Word)
  | PUSH1 (b : Nat)
  | POP
  | DUP1
  | SWAP1
  | SLOAD
  | SSTORE
  | ISZERO
  | RETURN
deriving DecidableEq, Repr

/-- Model of `struct ContractStorage { slots: Vec<U256> }`. -/
structure ContractStorage where
  slots : List Word
deriving DecidableEq, Repr

/-- The interpreter state of `VM::run`: program, program counter, stack
and the storage being threaded through the loop. -/
structure VMState where
  program : List OP
  pc : Nat
  stack : Stack
  storage : ContractStorage
deriving DecidableEq, Repr

/-- Outcome of one iteration of the `while` loop in `VM::run`. -/
inductive StepOut where
  | cont (s : VMState)
  | halt (stack : Stack) (storage : ContractStorage)
  | crash
deriving DecidableEq, Repr

/-- One fetch-decode-execute iteration of `VM::run`.  `halt` covers both
loop exit (`pc ≥ program.len()`) and `OP::RETURN`'s `break`; `crash`
embeds the panics of `unwrap()` on an empty stack, the unchecked
`swap`, and out-of-bounds `Vec` indexing in `SLOAD`/`SSTORE`.
`U256::as_usize` is the truncating cast `% 2 ^ 64`. -/
def step (s : VMState) : StepOut :=
  if s.pc < s.program.length then
    match s.program.getD s.pc OP.RETURN with
    | OP.PUSH32 w =>
        .cont { s with stack := s.stack.push32 w, pc := s.pc + 1 }
    | OP.PUSH1 b =>
        .cont { s with stack := s.stack.push1 b, pc := s.pc + 1 }
    | OP.POP =>
        .cont { s with stack := (s.stack.pop).elim s.stack Prod.snd, pc := s.pc + 1 }
    | OP.SWAP1 =>
        match s.stack.swap with
        | some st => .cont { s with stack := st, pc := s.pc + 1 }
        | none => .crash
    | OP.DUP1 =>
        match s.stack.pop with
        | some (v, st) =>
            .cont { s with stack := (st.push32 v).push32 v, pc := s.pc + 1 }
        | none => .crash
    | OP.SLOAD =>
        match s.stack.pop with
        | some (key, st) =>
            if key % 2 ^ 64 < s.storage.slots.length then
              .cont { s with stack := st.push32 (s.storage.slots.getD (key % 2 ^ 64) 0),
                             pc := s.pc + 1 }
            else
              .crash
        | none => .crash
    | OP.SSTORE =>
        match s.stack.pop with
        | some (key, st1) =>
            match st1.pop with
            | some (val, st2) =>
                if key % 2 ^ 64 < s.storage.slots.length then
                  .cont { s with stack := st2,
                                 storage := ⟨s.storage.slots.set (key % 2 ^ 64) val⟩,
                                 pc := s.pc + 1 }
                else
                  .crash
            | none => .crash
        | none => .crash
    | OP.ISZERO =>
        match s.stack.pop with
        | some (v, st) =>
            .cont { s with stack := st.push32 (if v = 0 then 1 else 0),
                           pc := s.pc + 1 }
        | none => .crash
    | OP.RETURN =>
        .halt s.stack s.storage
  else
    .halt s.stack s.storage

/-- Result of running the interpreter loop to completion under a fuel
bound: normal completion (final stack and storage), a panic, or fuel
exhaustion.  `fuelOut` is proved unreachable for the fuel `VM.run`
supplies. -/
inductive RunResult where
  | ok (stack : Stack) (storage : ContractStorage)
  | crash
  | fuelOut (s : VMState)
deriving DecidableEq, Repr

/-- Is the result a fuel exhaustion? -/
def RunResult.isOut : RunResult → Bool
  | .fuelOut _ => true
  | _ => false

/-- The storage a completed run produced, if any. -/
def RunResult.storageOut : RunResult → Option ContractStorage
  | .ok _ sto => some sto
  | _ => none

/-- The `while pc < program.len()` loop of `VM::run`, iterated under a
fuel bound. -/
def runLoop (fuel : Nat) (s : VMState) : RunResult :=
  match step s with
  | .halt st sto => .ok st sto
  | .crash => .crash
  | .cont s' =>
      match fuel with
      | 0 => .fuelOut s'
      | fuel' + 1 => runLoop fuel' s'

/-- Model of `VM::run`: execute `program` from `pc = 0` on a fresh stack against
`storage`.  The fuel `program.length` is exact: straight-line programs
advance `pc` by one per step (theorem `c8_straight_line_termination`). -/
def VM.run (program : List OP) (storage : ContractStorage) : RunResult :=
  runLoop program.length { program := program, pc := 0, stack := Stack.new, storage := storage }

/-! ## Selector derivation

The keccak hash primitive is external to the repository (spec §1/§6
treats it as an opaque pure function `bytes → digest`), so every
definition that derives a selector is parameterised by
`hash : String → List Nat`, a function from the signature string to the
digest's byte sequence. -/

/-- One lowercase hexadecimal digit, as produced by `format!("{:02x}")`. -/
def hexDigitChar : Nat → Char
  | 0 => '0' | 1 => '1' | 2 => '2' | 3 => '3' | 4 => '4'
  | 5 => '5' | 6 => '6' | 7 => '7' | 8 => '8' | 9 => '9'
  | 10 => 'a' | 11 => 'b' | 12 => 'c' | 13 => 'd' | 14 => 'e' | 15 => 'f'
  | _ => '0'

/-- Model of `format!("{:02x}", b)` for a byte `b`: exactly two lowercase hex
digits. -/
def byteHex (b : Nat) : List Char :=
  [hexDigitChar (b / 16), hexDigitChar (b % 16)]

/-- Model of `get_func_sig`: the first 4 bytes of the (external) hash of the
signature string, each rendered as two lowercase hex characters and
concatenated. -/
def get_func_sig (hash : String → List Nat) (in_str : String) : String :=
  String.mk ((((hash in_str).take 4).map byteHex).flatten)

/-- The `params_str` computed inside `find_function_signature`: `"bool"`
for a single bool-typed parameter, `""` otherwise. -/
def paramsStr : ParameterList → String
  | .Param _ (some p) _ =>
      match p.ty with
      | .TypeExpr (.Bool _) => "bool"
      | _ => ""
  | .Param _ none _ => ""

/-- The canonical signature string `format!("{}({})", name, params_str)`. -/
def sigString (name : String) (params : ParameterList) : String :=
  name ++ "(" ++ paramsStr params ++ ")"

/-- Model of `find_function_signature`: selector of a function's canonical
signature. -/
def find_function_signature (hash : String → List Nat) (name : String)
    (params : ParameterList) : String :=
  get_func_sig hash (sigString name params)

/-! ## Contract model and dispatcher -/

/-- Model of `enum FuncVisibility` (default `Internal`). -/
inductive FuncVisibility where
  | Public
  | Private
  | Internal
  | External
deriving DecidableEq, Repr

/-- Model of `enum FuncMutability` (default `NonPayable`). -/
inductive FuncMutability where
  | Constant
  | NonPayable
  | Payable
  | View
  | Pure
deriving DecidableEq, Repr

/-- The `if let FuncMutability::View | FuncMutability::Pure` test of the
mutability gate in `Contract::call`. -/
def FuncMutability.isViewPure : FuncMutability → Bool
  | .View => true
  | .Pure => true
  | _ => false

/-- Model of `struct Function`. -/
structure Function where
  program : List OP
  visibility : FuncVisibility
  mutability : FuncMutability
  returns : List Parameter
deriving DecidableEq, Repr

/-- Model of `struct Contract`. -/
structure Contract where
  name : String
  functions : AList String Function
  variable_map : AList String Nat
  storage : ContractStorage
deriving DecidableEq, Repr

/-- Model of `Contract::new`: given name, all other fields defaulted to empty. -/
def Contract.new (name : String) : Contract :=
  { name := name, functions := [], variable_map := [], storage := ⟨[]⟩ }

/-- The return-value decoding loop of `Contract::call`: for each declared
return parameter, pop one word (silently skipping when the stack is
empty) and decode it only when the parameter's type is `bool`
(`word == 1` ↦ `true`).  Returns the decoded list and the stack as left
by the pops. -/
def decodeReturns (returns : List Parameter) (st : Stack) : List Expression × Stack :=
  returns.foldl
    (fun acc param =>
      match acc.2.pop with
      | some (r, st') =>
          match param.ty with
          | .TypeExpr (.Bool _) => (acc.1 ++ [Expression.BoolLiteral (r == 1)], st')
          | _ => (acc.1, st')
      | none => acc)
    ([], st)

/-- Model of `Contract::call`: look up the selector; unknown selectors return the
contract unchanged with no return values; otherwise run the VM on a
snapshot of storage, decode return values from the final stack, and
commit the produced storage unless the function is `View`/`Pure`.  A VM
panic (`RunResult.crash`) propagates as `none`; `fuelOut` cannot occur
(theorem `c8_straight_line_termination`). -/
def Contract.call (c : Contract) (calldata : String) : Option (Contract × List Expression) :=
  match c.functions.get calldata with
  | some fn =>
      match VM.run fn.program c.storage with
      | .ok finalStack newStorage =>
          some ({ c with storage :=
                    if fn.mutability.isViewPure then c.storage else newStorage },
                (decodeReturns fn.returns finalStack).1)
      | _ => none
  | none => some (c, [])

/-! ## Lowering compiler -/

/-- Model of `handle_attrs`: fold the attribute list left to right over the
defaults (`Internal`, `NonPayable`); the last attribute of each category
wins. -/
def handle_attrs (attr_list : List (Option FunctionAttribute)) :
    FuncVisibility × FuncMutability :=
  attr_list.foldl
    (fun acc attr =>
      match attr with
      | some (.Visibility v) =>
          (match v with
           | .Public _ => FuncVisibility.Public
           | .Private _ => FuncVisibility.Private
           | .Internal _ => FuncVisibility.Internal
           | .External _ => FuncVisibility.External, acc.2)
      | some (.Mutability m) =>
          (acc.1,
           match m with
           | .Constant _ => FuncMutability.Constant
           | .Payable _ => FuncMutability.Payable
           | .View _ => FuncMutability.View
           | .Pure _ => FuncMutability.Pure)
      | none => acc)
    (FuncVisibility.Internal, FuncMutability.NonPayable)

/-- The return-parameter extraction in `handle_contract_part`: a single
parameter when the nested `if let` pattern matches, else none. -/
def extractReturns : Option FunctionReturnParams → List Parameter
  | some (.ParameterList _ (.Param _ (some p) _)) => [p]
  | _ => []

/-- The slot-resolution preamble shared by the `Variable` and `Assign`
arms of `handle_expression`: `let mut slot = 0; if let Some(found) = …`. -/
def slotOf (c : Contract) (ident : Identifier) : Nat :=
  (c.variable_map.get ident.name).getD 0

/-- Model of `handle_expression`: expression lowering.  The `slot as u8`
truncating cast becomes `% 256`. -/
def handle_expression (e : Expression) (c : Contract) : List OP :=
  match e with
  | .BoolLiteral _ => []
  | .Variable ident =>
      [OP.PUSH1 (slotOf c ident % 256), OP.SLOAD]
  | .Assign left _ right =>
      match left with
      | .Variable ident =>
          handle_expression right c ++ [OP.PUSH1 (slotOf c ident % 256), OP.SSTORE]
      | _ => []
  | .Not _ expr =>
      handle_expression expr c ++ [OP.ISZERO]
  | .TypeExpr _ => []

/-- Model of `handle_statement`: statement lowering. -/
def handle_statement (statement : Statement) (c : Contract) : List OP :=
  match statement with
  | .Expression expr _ => handle_expression expr c
  | .Return _ (some expr) _ => handle_expression expr c ++ [OP.RETURN]
  | .Return _ none _ => [OP.RETURN]

/-- Does the lowered body end in `OP.RETURN`, i.e. is the statement an
explicit `return`? -/
def Statement.isRet : Statement → Bool
  | .Return _ _ _ => true
  | _ => false

/-- Model of `handle_contract_part`: register a bodied function in the function
table under its selector; allocate a storage slot for a state-variable
declaration; skip bodiless functions and constructors. -/
def handle_contract_part (hash : String → List Nat) (part : ContractPart)
    (c : Contract) : Contract :=
  match part with
  | .FunctionDefinition _ name params attr_list ret_params _ (some statement) _ =>
      let program := handle_statement statement c
      let vm := handle_attrs attr_list
      let returns := extractReturns ret_params
      let fn : Function :=
        { program := program, visibility := vm.1, mutability := vm.2,
          returns := returns }
      { c with functions :=
          c.functions.insert (find_function_signature hash name params) fn }
  | .FunctionDefinition _ _ _ _ _ _ none _ => c
  | .VariableDefinition _ _ name _ =>
      { c with variable_map := c.variable_map.insert name c.variable_map.length,
               storage := ⟨c.storage.slots ++ [0]⟩ }
  | .ConstructorDefinition _ _ _ _ _ _ => c

/-- The contract-body fold of `handle_source_unit_part`: process the
parts in declaration order, starting from `Contract::new(name)`. -/
def lowerContractParts (hash : String → List Nat) (name : String)
    (parts : List ContractPart) : Contract :=
  parts.foldl (fun c p => handle_contract_part hash p c) (Contract.new name)

/-- Model of `handle_source_unit_part`: only contract definitions produce a
contract. -/
def handle_source_unit_part (hash : String → List Nat) :
    SourceUnitPart → Option Contract
  | .ContractDefinition _ name _ parts _ => some (lowerContractParts hash name parts)
  | .OtherPart _ => none

/-- Model of `handle_source_unit` / `create_contracts`: lower every contract
definition of the unit. -/
def create_contracts (hash : String → List Nat) (source_unit : SourceUnit) :
    List Contract :=
  source_unit.parts.filterMap (handle_source_unit_part hash)

/-- The names of the declared state variables of a part list, in
declaration order. -/
def varNames : List ContractPart → List String
  | [] => []
  | .VariableDefinition _ _ name _ :: rest => name :: varNames rest
  | _ :: rest => varNames rest

/-- Is a character one of `0`-`9a-f` (the characters `{:02x}` can emit)? -/
def isLowerHex (c : Char) : Bool :=
  (48 ≤ c.toNat && c.toNat ≤ 57) || (97 ≤ c.toNat && c.toNat ≤ 102)

/-! ## Concrete instances used by counterexamples and witnesses -/

/-- A stand-in digest function (the hash is external and opaque): the
all-zero 32-byte digest. -/
def hash0 : String → List Nat := fun _ => List.replicate 32 0

/-- A stand-in digest function with distinctive leading bytes. -/
def hashW : String → List Nat := fun _ => [26, 171, 0, 255, 9]

/-- A bodied function definition whose body is the expression statement
`x;` — not an explicit return. -/
def c4part : ContractPart :=
  .FunctionDefinition () "set" (.Param () none ()) [] none ()
    (some (.Expression (.Variable ⟨"x"⟩) ())) ()

/-- Two state-variable declarations sharing the name `x`. -/
def partsDup : List ContractPart :=
  [.VariableDefinition (.Bool ()) () "x" (), .VariableDefinition (.Bool ()) () "x" ()]

/-- Two state-variable declarations with distinct names. -/
def partsAB : List ContractPart :=
  [.VariableDefinition (.Bool ()) () "a" (), .VariableDefinition (.Bool ()) () "b" ()]

/-- A view function with an empty body program. -/
def fnView : Function :=
  { program := [], visibility := .Public, mutability := .View, returns := [] }

/-- A contract exposing `fnView` under the selector string `ab`. -/
def cView : Contract :=
  { name := "T", functions := [("ab", fnView)], variable_map := [], storage := ⟨[5]⟩ }

/-- A contract whose variable `x` was assigned the (hypothetical) slot
index 300 ≥ 256. -/
def cSlot300 : Contract :=
  { name := "X", functions := [], variable_map := [("x", 300)], storage := ⟨[]⟩ }

/-- A 45-slot storage holding the word 7 everywhere (slot 300 % 256 = 44
is in range, slot 300 is not). -/
def stor45 : ContractStorage := ⟨List.replicate 45 7⟩

/-! ## Helper lemmas: association lists -/

theorem AList.get_insert {α β : Type} [DecidableEq α] (m : AList α β) (k k' : α) (v : β) :
    (m.insert k v).get k' = if k = k' then some v else m.get k' := by
  induction m with
  | nil =>
      show AList.get [(k, v)] k' = _
      unfold AList.get
      rfl
  | cons e rest ih =>
      obtain ⟨a, b⟩ := e
      show AList.get (if a = k then (a, v) :: rest else (a, b) :: AList.insert rest k v) k' = _
      by_cases h1 : a = k
      · subst h1
        rw [if_pos rfl]
        unfold AList.get
        by_cases h2 : a = k'
        · rw [if_pos h2, if_pos h2]
        · rw [if_neg h2, if_neg h2, if_neg h2]
      · rw [if_neg h1]
        unfold AList.get
        by_cases h2 : a = k'
        · subst h2
          rw [if_pos rfl, if_neg (fun h => h1 h.symm), if_pos rfl]
        · rw [if_neg h2, ih]
          by_cases h3 : k = k'
          · rw [if_pos h3, if_pos h3]
          · rw [if_neg h3, if_neg h3, if_neg h2]

theorem AList.get_insert_self {α β : Type} [DecidableEq α] (m : AList α β) (k : α) (v : β) :
    (m.insert k v).get k = some v := by
  rw [AList.get_insert, if_pos rfl]

theorem AList.length_insert_of_get_none {α β : Type} [DecidableEq α]
    (m : AList α β) (k : α) (v : β) (h : m.get k = none) :
    (m.insert k v).length = m.length + 1 := by
  induction m with
  | nil => rfl
  | cons e rest ih =>
      obtain ⟨a, b⟩ := e
      simp only [AList.get] at h
      by_cases hak : a = k
      · simp [hak] at h
      · simp only [AList.insert, if_neg hak, List.length_cons]
        rw [ih (by simpa [hak] using h)]

/-! ## Helper lemmas: lists and stacks -/

theorem getD_set_self (l : List Word) (n : Nat) (v : Word) (h : n < l.length) :
    (l.set n v).getD n 0 = v := by
  rw [List.getD_eq_getElem?_getD, List.getElem?_set_self h]; rfl

theorem getD_set_ne (l : List Word) (i j : Nat) (v : Word) (h : i ≠ j) :
    (l.set i v).getD j 0 = l.getD j 0 := by
  rw [List.getD_eq_getElem?_getD, List.getElem?_set, if_neg h, ← List.getD_eq_getElem?_getD]

theorem Stack.pop_mk (arr : List Word) (t : Nat) :
    Stack.pop ⟨arr, t + 1⟩ = some (arr.getD t 0, ⟨arr, t⟩) := by
  simp [Stack.pop]

theorem Stack.push32_mk (arr : List Word) (t : Nat) (v : Word) (h : t < 1024) :
    Stack.push32 ⟨arr, t⟩ v = ⟨arr.set t v, t + 1⟩ := by
  simp [Stack.push32, h]

theorem pop_new_push32 (v : Word) :
    (Stack.new.push32 v).pop = some (v, ⟨(List.replicate 1024 (0 : Word)).set 0 v, 0⟩) := by
  have h1 : Stack.new.push32 v = ⟨(List.replicate 1024 (0 : Word)).set 0 v, 0 + 1⟩ :=
    Stack.push32_mk _ 0 v (by norm_num)
  rw [h1, Stack.pop_mk, getD_set_self _ _ _ (by rw [List.length_replicate]; norm_num)]

/-! ## Helper lemmas: the interpreter loop -/

theorem runLoop_cont {fuel : Nat} {s s' : VMState} (h : step s = .cont s') :
    runLoop (fuel + 1) s = runLoop fuel s' := by
  rw [runLoop, h]

theorem runLoop_halted {fuel : Nat} {s : VMState} {st : Stack} {sto : ContractStorage}
    (h : step s = .halt st sto) : runLoop fuel s = .ok st sto := by
  rw [runLoop, h]

theorem runLoop_crashed {fuel : Nat} {s : VMState} (h : step s = .crash) :
    runLoop fuel s = .crash := by
  rw [runLoop, h]

theorem step_cont_advance {s s' : VMState} (h : step s = .cont s') :
    s.pc < s.program.length ∧ s'.pc = s.pc + 1 ∧ s'.program = s.program := by
  unfold step at h
  split at h
  case isFalse hpc => cases h
  case isTrue hpc =>
    refine ⟨hpc, ?_⟩
    split at h
    all_goals try (repeat split at h)
    all_goals cases h
    all_goals exact ⟨rfl, rfl⟩

theorem step_at_end {s : VMState} (h : s.program.length ≤ s.pc) :
    step s = .halt s.stack s.storage := by
  unfold step
  rw [if_neg (Nat.not_lt.2 h)]

theorem step_at_ret {s : VMState} (hpc : s.pc < s.program.length)
    (hop : s.program.getD s.pc OP.RETURN = OP.RETURN) :
    step s = .halt s.stack s.storage := by
  unfold step
  rw [if_pos hpc, hop]

theorem runLoop_isOut_false :
    ∀ (fuel : Nat) (s : VMState), s.program.length - s.pc ≤ fuel →
      (runLoop fuel s).isOut = false := by
  intro fuel
  induction fuel with
  | zero =>
      intro s h
      have hend : s.program.length ≤ s.pc := by omega
      rw [runLoop_halted (step_at_end hend)]
      rfl
  | succ f ih =>
      intro s h
      cases hs : step s with
      | halt st sto => rw [runLoop_halted hs]; rfl
      | crash => rw [runLoop_crashed hs]; rfl
      | cont s' =>
          rw [runLoop_cont hs]
          obtain ⟨hpc, hpc1, hprog⟩ := step_cont_advance hs
          apply ih
          rw [hpc1, hprog]
          omega

/-! ## Claim C1 — push onto a full stack -/

/-- C1: the claim asserts that `push` onto a full stack (top = 1024)
faults with an explicit `StackOverflow` error.  The code instead returns
with the stack **unchanged and no error signalled** (`push32` is
infallible and its `if self.top < 1024` has no else branch), i.e. the
1025th push is silently discarded — exactly the behaviour the spec
forbids. -/
theorem c1_push_full_is_silent_noop (s : Stack) (value : Word) (h : s.top = 1024) :
    s.push32 value = s := by
  unfold Stack.push32
  rw [h]
  simp

theorem c1_push_full_is_silent_noop_witness :
    Stack.push32 ⟨List.replicate 1024 0, 1024⟩ 7 = ⟨List.replicate 1024 0, 1024⟩ :=
  c1_push_full_is_silent_noop ⟨List.replicate 1024 0, 1024⟩ 7 rfl

/-! ## Claim C3 — swap with fewer than two entries -/

/-- C3: the claim asserts that swapping the top two entries of a stack
with fewer than two entries fails with a `StackUnderflow` error via an
explicit bounds check.  The code has no bounds check at all: it computes
`self.top - 1` / `self.top - 2` on the unsigned counter and panics
(embedded as `none`), there is no `StackUnderflow` error value anywhere
in the source. -/
theorem c3_swap_underflow_panics (s : Stack) (h : s.top < 2) :
    s.swap = none := by
  unfold Stack.swap
  rw [if_neg]
  intro hc
  omega

theorem c3_swap_underflow_panics_witness : Stack.new.swap = none :=
  c3_swap_underflow_panics Stack.new (by decide)

/-! ## Claim C2 — Load with an out-of-range key -/

/-- C2: the claim asserts that `Load`/`Store` with a popped key at or
beyond the storage length faults with a recoverable
`InvalidStorageSlot` error and performs no out-of-bounds index.  The
code instead evaluates `storage.slots[key.as_usize()]`, an out-of-bounds
`Vec` index that panics and aborts the call (embedded as
`RunResult.crash`); no `InvalidStorageSlot` error exists in the source.
Stated here for any key below the `usize` truncation bound and any
storage shorter than the key. -/
theorem c2_sload_oob_is_panic (slots : List Word) (k : Word)
    (hk : k < 2 ^ 64) (hlen : slots.length ≤ k) :
    VM.run [OP.PUSH32 k, OP.SLOAD] ⟨slots⟩ = .crash := by
  have e1 : step ⟨[OP.PUSH32 k, OP.SLOAD], 0, Stack.new, ⟨slots⟩⟩
      = .cont ⟨[OP.PUSH32 k, OP.SLOAD], 1, Stack.new.push32 k, ⟨slots⟩⟩ := rfl
  have e2 : step ⟨[OP.PUSH32 k, OP.SLOAD], 1, Stack.new.push32 k, ⟨slots⟩⟩ = .crash := by
    unfold step
    rw [if_pos (by norm_num)]
    show (match (Stack.new.push32 k).pop with
          | some (key, st) =>
              if key % 2 ^ 64 < slots.length then
                StepOut.cont ⟨[OP.PUSH32 k, OP.SLOAD], 1 + 1,
                  st.push32 (slots.getD (key % 2 ^ 64) 0), ⟨slots⟩⟩
              else StepOut.crash
          | none => StepOut.crash) = StepOut.crash
    rw [pop_new_push32]
    show (if k % 2 ^ 64 < slots.length then _ else StepOut.crash) = StepOut.crash
    rw [Nat.mod_eq_of_lt hk, if_neg (Nat.not_lt.2 hlen)]
  show runLoop 2 _ = _
  rw [runLoop_cont e1, runLoop_crashed e2]

theorem c2_sload_oob_is_panic_witness :
    VM.run [OP.PUSH32 0, OP.SLOAD] ⟨[]⟩ = .crash :=
  c2_sload_oob_is_panic [] 0 (by norm_num) (by norm_num)

/-! ## Claim C7 — unknown selector -/

/-- C7: a call whose selector is not in the function table returns the
contract unchanged together with an empty return list — a normal
outcome, not an error. -/
theorem c7_unknown_selector_is_noop (c : Contract) (calldata : String)
    (h : c.functions.get calldata = none) :
    c.call calldata = some (c, []) := by
  unfold Contract.call
  rw [h]

theorem c7_unknown_selector_is_noop_witness :
    (Contract.new "C").call "deadbeef" = some (Contract.new "C", []) :=
  c7_unknown_selector_is_noop (Contract.new "C") "deadbeef" rfl

/-! ## Claim C5 — mutability gate -/

/-- C5: when a call resolves to a function and the engine completes, the
returned contract keeps the caller's original storage if the function's
mutability is `View` or `Pure` (the engine's storage output is
discarded), and otherwise commits the engine's storage output; the
name, function table and slot map are unchanged in both cases (the
result is a record update of `c` touching only `storage`). -/
theorem c5_mutability_gate (c : Contract) (sel : String) (fn : Function)
    (st : Stack) (sto : ContractStorage)
    (hfn : c.functions.get sel = some fn)
    (hrun : VM.run fn.program c.storage = .ok st sto) :
    c.call sel = some
      ({ c with storage := if fn.mutability.isViewPure then c.storage else sto },
       (decodeReturns fn.returns st).1) := by
  simp only [Contract.call, hfn, hrun]

theorem c5_mutability_gate_witness :
    cView.call "ab" = some
      ({ cView with storage := if fnView.mutability.isViewPure then cView.storage else ⟨[5]⟩ },
       (decodeReturns fnView.returns Stack.new).1) :=
  c5_mutability_gate cView "ab" fnView Stack.new ⟨[5]⟩ rfl rfl

/-! ## Claim C8 — straight-line termination -/

/-- C8: the engine terminates after at most `program.length` steps — the
fuel `program.length` that `VM.run` hands the loop is never exhausted;
every opcode that continues execution advances the program counter by
exactly 1 (and never changes the program, i.e. there is no jump or
branch); `Return` halts immediately; and execution stops when the
program counter reaches the program length. -/
theorem c8_straight_line_termination (program : List OP) (storage : ContractStorage)
    (s s' : VMState) :
    (VM.run program storage).isOut = false
    ∧ (step s = .cont s' → s'.pc = s.pc + 1 ∧ s'.program = s.program)
    ∧ (s.program.length ≤ s.pc → step s = .halt s.stack s.storage)
    ∧ (s.pc < s.program.length → s.program.getD s.pc OP.RETURN = OP.RETURN →
        step s = .halt s.stack s.storage) := by
  refine ⟨?_, ?_, ?_, ?_⟩
  · exact runLoop_isOut_false program.length _ (Nat.sub_le _ _)
  · intro h
    exact (step_cont_advance h).2
  · exact step_at_end
  · exact fun h1 h2 => step_at_ret h1 h2

theorem c8_straight_line_termination_witness :
    (VM.run [OP.RETURN] ⟨[]⟩).isOut = false
    ∧ ((⟨[OP.POP], 1, Stack.new, ⟨[]⟩⟩ : VMState).pc
          = (⟨[OP.POP], 0, Stack.new, ⟨[]⟩⟩ : VMState).pc + 1
        ∧ (⟨[OP.POP], 1, Stack.new, ⟨[]⟩⟩ : VMState).program
          = (⟨[OP.POP], 0, Stack.new, ⟨[]⟩⟩ : VMState).program)
    ∧ step ⟨[], 0, Stack.new, ⟨[]⟩⟩ = .halt Stack.new ⟨[]⟩
    ∧ step ⟨[OP.RETURN], 0, Stack.new, ⟨[]⟩⟩ = .halt Stack.new ⟨[]⟩ :=
  ⟨(c8_straight_line_termination [OP.RETURN] ⟨[]⟩ ⟨[], 0, Stack.new, ⟨[]⟩⟩
      ⟨[], 0, Stack.new, ⟨[]⟩⟩).1,
   (c8_straight_line_termination [] ⟨[]⟩ ⟨[OP.POP], 0, Stack.new, ⟨[]⟩⟩
      ⟨[OP.POP], 1, Stack.new, ⟨[]⟩⟩).2.1 rfl,
   (c8_straight_line_termination [] ⟨[]⟩ ⟨[], 0, Stack.new, ⟨[]⟩⟩
      ⟨[], 0, Stack.new, ⟨[]⟩⟩).2.2.1 (by simp),
   (c8_straight_line_termination [] ⟨[]⟩ ⟨[OP.RETURN], 0, Stack.new, ⟨[]⟩⟩
      ⟨[], 0, Stack.new, ⟨[]⟩⟩).2.2.2 (by simp) rfl⟩

/-! ## Claim C4 — no trailing Return is appended -/

theorem handle_expression_no_ret (e : Expression) (c : Contract) :
    (handle_expression e c).getLast? ≠ some OP.RETURN := by
  induction e with
  | BoolLiteral val => simp [handle_expression]
  | Variable identifier => simp [handle_expression]
  | Assign left op right ihl ihr =>
      cases left with
      | Variable identifier => simp [handle_expression, List.getLast?_append]
      | BoolLiteral val => simp [handle_expression]
      | Assign l2 o2 r2 => simp [handle_expression]
      | Not o2 e2 => simp [handle_expression]
      | TypeExpr ty => simp [handle_expression]
  | Not op expr ih => simp [handle_expression, List.getLast?_append]
  | TypeExpr ty => simp [handle_expression]

/-- C4 counterexample: the claim asserts the compiler appends a trailing
`Return` when the lowered body does not end in one, so that every stored
program ends with `Return`.  It does not: lowering the bodied function
`c4part` (body `x;`, an expression statement) stores the program
`[PUSH1 0, SLOAD]`, whose last opcode is not `Return`. -/
theorem c4_stored_program_lacks_return :
    ((handle_contract_part hash0 c4part (Contract.new "C")).functions.get
        (find_function_signature hash0 "set" (.Param () none ())))
      = some { program := [OP.PUSH1 0, OP.SLOAD], visibility := .Internal,
               mutability := .NonPayable, returns := [] }
    ∧ [OP.PUSH1 0, OP.SLOAD].getLast? ≠ some OP.RETURN := by
  constructor
  · decide
  · decide

/-- C4 amended: `handle_contract_part` stores the lowered body
`handle_statement stmt c` **as-is** — no trailing `Return` is appended —
and the stored program ends in `Return` exactly when the body statement
is an explicit return statement. -/
theorem c4_amended_program_stored_as_lowered (hash : String → List Nat)
    (name : String) (params : ParameterList)
    (attr_list : List (Option FunctionAttribute))
    (ret_params : Option FunctionReturnParams) (u1 u2 u3 : Unit)
    (stmt : Statement) (c : Contract) :
    ((handle_contract_part hash
        (.FunctionDefinition u1 name params attr_list ret_params u2 (some stmt) u3)
        c).functions.get (find_function_signature hash name params)
      = some { program := handle_statement stmt c,
               visibility := (handle_attrs attr_list).1,
               mutability := (handle_attrs attr_list).2,
               returns := extractReturns ret_params })
    ∧ ((handle_statement stmt c).getLast? = some OP.RETURN ↔ stmt.isRet = true) := by
  constructor
  · exact AList.get_insert_self _ _ _
  · cases stmt with
    | Expression e u =>
        simp only [handle_statement, Statement.isRet]
        constructor
        · intro h
          exact absurd h (handle_expression_no_ret e c)
        · intro h
          cases h
    | Return u1 eo u2 =>
        cases eo with
        | none => simp [handle_statement, Statement.isRet]
        | some e => simp [handle_statement, Statement.isRet, List.getLast?_append]

/-! ## Claim C6 — slot allocation -/

theorem foldParts_get_of_not_mem (hash : String → List Nat) :
    ∀ (parts : List ContractPart) (c : Contract) (v : String),
      v ∉ varNames parts →
      (parts.foldl (fun c p => handle_contract_part hash p c) c).variable_map.get v
        = c.variable_map.get v := by
  intro parts
  induction parts with
  | nil => intro c v _; rfl
  | cons p rest ih =>
      intro c v hv
      rw [List.foldl_cons]
      cases p with
      | FunctionDefinition u1 n pr a r u2 st u3 =>
          rw [ih _ v hv]
          cases st <;> rfl
      | ConstructorDefinition u1 pr a u2 st u3 =>
          rw [ih _ v hv]
          rfl
      | VariableDefinition t vis nm u =>
          have hvne : ¬ (nm = v) := by
            intro h
            exact hv (h ▸ List.mem_cons_self nm (varNames rest))
          have hv' : v ∉ varNames rest := fun h => hv (List.mem_cons_of_mem nm h)
          rw [ih _ v hv']
          show (c.variable_map.insert nm c.variable_map.length).get v = c.variable_map.get v
          rw [AList.get_insert, if_neg hvne]

theorem foldParts_storage (hash : String → List Nat) :
    ∀ (parts : List ContractPart) (c : Contract),
      (parts.foldl (fun c p => handle_contract_part hash p c) c).storage.slots
        = c.storage.slots ++ List.replicate (varNames parts).length 0 := by
  intro parts
  induction parts with
  | nil => intro c; simp [varNames]
  | cons p rest ih =>
      intro c
      rw [List.foldl_cons]
      cases p with
      | FunctionDefinition u1 n pr a r u2 st u3 =>
          cases st with
          | none => rw [ih]; simp [handle_contract_part, varNames]
          | some stm => rw [ih]; simp [handle_contract_part, varNames]
      | ConstructorDefinition u1 pr a u2 st u3 =>
          rw [ih]
          simp [handle_contract_part, varNames]
      | VariableDefinition t vis nm u =>
          rw [ih]
          simp [handle_contract_part, varNames, List.replicate_succ]

theorem foldParts_map_inv (hash : String → List Nat) :
    ∀ (parts : List ContractPart) (c : Contract),
      (varNames parts).Nodup →
      (∀ v ∈ varNames parts, c.variable_map.get v = none) →
      (∀ i (h : i < (varNames parts).length),
          (parts.foldl (fun c p => handle_contract_part hash p c) c).variable_map.get
              ((varNames parts).get ⟨i, h⟩)
            = some (c.variable_map.length + i))
      ∧ (parts.foldl (fun c p => handle_contract_part hash p c) c).variable_map.length
          = c.variable_map.length + (varNames parts).length := by
  intro parts
  induction parts with
  | nil =>
      intro c _ _
      constructor
      · intro i h
        simp [varNames] at h
      · simp [varNames]
  | cons p rest ih =>
      intro c hnd hnone
      cases p with
      | FunctionDefinition u1 n pr a r u2 st u3 =>
          cases st with
          | none => exact ih _ hnd hnone
          | some stm => exact ih _ hnd hnone
      | ConstructorDefinition u1 pr a u2 st u3 =>
          exact ih _ hnd hnone
      | VariableDefinition t vis nm u =>
          obtain ⟨hnm, hndr⟩ := List.nodup_cons.mp hnd
          have hget_nm : c.variable_map.get nm = none :=
            hnone nm (List.mem_cons_self nm (varNames rest))
          have hc1len : (c.variable_map.insert nm c.variable_map.length).length
              = c.variable_map.length + 1 :=
            AList.length_insert_of_get_none _ _ _ hget_nm
          have hnone1 : ∀ v ∈ varNames rest,
              (c.variable_map.insert nm c.variable_map.length).get v = none := by
            intro v hv
            rw [AList.get_insert, if_neg (fun h : nm = v => hnm (h.symm ▸ hv))]
            exact hnone v (List.mem_cons_of_mem nm hv)
          obtain ⟨ih1, ih2⟩ :=
            ih (handle_contract_part hash (ContractPart.VariableDefinition t vis nm u) c)
              hndr hnone1
          constructor
          · intro i hi
            cases i with
            | zero =>
                show (List.foldl (fun c p => handle_contract_part hash p c)
                    (handle_contract_part hash
                      (ContractPart.VariableDefinition t vis nm u) c)
                    rest).variable_map.get nm = some (c.variable_map.length + 0)
                rw [foldParts_get_of_not_mem hash rest _ nm hnm]
                show (c.variable_map.insert nm c.variable_map.length).get nm = _
                rw [AList.get_insert_self, Nat.add_zero]
            | succ j =>
                have hj : j < (varNames rest).length := Nat.lt_of_succ_lt_succ hi
                refine (ih1 j hj).trans ?_
                show some ((c.variable_map.insert nm c.variable_map.length).length + j) = _
                rw [hc1len]
                congr 1
                omega
          · refine ih2.trans ?_
            show (c.variable_map.insert nm c.variable_map.length).length
                + (varNames rest).length = _
            rw [hc1len]
            show c.variable_map.length + 1 + (varNames rest).length
                = c.variable_map.length + ((varNames rest).length + 1)
            omega

/-- C6 counterexample: the claim asserts slot indices are unique and
contiguous from 0 in declaration order *including when two declarations
share a name*.  With the duplicate declarations `partsDup` (`x`, `x`)
the map ends up as `x ↦ 1`: the first declared variable is not mapped
to slot 0, so the contiguous-from-0 assignment fails. -/
theorem c6_duplicate_names_break_slot_map :
    ¬ (∀ i (h : i < (varNames partsDup).length),
        (lowerContractParts hash0 "C" partsDup).variable_map.get
            ((varNames partsDup).get ⟨i, h⟩) = some i) := by
  decide

/-- C6 amended: **when the declared state-variable names are pairwise
distinct**, the name-to-slot map assigns the i-th declared variable the
slot i (unique, contiguous from 0, in declaration order) and has one
entry per declaration; and unconditionally each declaration appends one
zero-initialised word, so storage is exactly `#declarations` zero
words.  (With duplicate names, the later declaration overwrites the
map entry using the map's — not the storage's — length, breaking
uniqueness/contiguity, as the counterexample shows.) -/
theorem c6_amended_slot_allocation (hash : String → List Nat) (name : String)
    (parts : List ContractPart) :
    ((varNames parts).Nodup →
      (∀ i (h : i < (varNames parts).length),
          (lowerContractParts hash name parts).variable_map.get
              ((varNames parts).get ⟨i, h⟩) = some i)
      ∧ (lowerContractParts hash name parts).variable_map.length
          = (varNames parts).length)
    ∧ (lowerContractParts hash name parts).storage.slots
        = List.replicate (varNames parts).length 0 := by
  constructor
  · intro hnd
    have h := foldParts_map_inv hash parts (Contract.new name) hnd (fun v _ => rfl)
    constructor
    · intro i hi
      have hx := h.1 i hi
      simpa [lowerContractParts, Contract.new] using hx
    · have hx := h.2
      simpa [lowerContractParts, Contract.new] using hx
  · have hx := foldParts_storage hash parts (Contract.new name)
    simpa [lowerContractParts, Contract.new] using hx

theorem c6_amended_slot_allocation_witness :
    (lowerContractParts hash0 "D" partsAB).variable_map.get
        ((varNames partsAB).get ⟨1, by decide⟩) = some 1
    ∧ (lowerContractParts hash0 "D" partsAB).storage.slots
        = List.replicate (varNames partsAB).length 0 :=
  ⟨((c6_amended_slot_allocation hash0 "D" partsAB).1 (by decide)).1 1 (by decide),
   (c6_amended_slot_allocation hash0 "D" partsAB).2⟩

/-! ## Claim C9 — selector derivation -/

set_option maxRecDepth 4096 in
theorem hexDigitChar_isLowerHex :
    ∀ b, b < 256 → isLowerHex (hexDigitChar (b / 16)) = true
      ∧ isLowerHex (hexDigitChar (b % 16)) = true := by
  decide

theorem flatten_byteHex_length (l : List Nat) (h : 4 ≤ l.length) :
    (((l.take 4).map byteHex).flatten).length = 8 := by
  obtain _ | ⟨a, _ | ⟨b, _ | ⟨c, _ | ⟨d, rest⟩⟩⟩⟩ := l
  · simp at h
  · simp at h
  · simp at h
  · simp at h
  · rfl

theorem mem_flatten_byteHex_isLowerHex (l : List Nat) (hb : ∀ b ∈ l, b < 256) :
    ∀ ch ∈ ((l.map byteHex).flatten), isLowerHex ch = true := by
  intro ch hch
  rw [List.mem_flatten] at hch
  obtain ⟨L, hL, hchL⟩ := hch
  rw [List.mem_map] at hL
  obtain ⟨b, hbl, rfl⟩ := hL
  have hx := hexDigitChar_isLowerHex b (hb b hbl)
  simp only [byteHex, List.mem_cons, List.not_mem_nil, or_false] at hchL
  rcases hchL with rfl | rfl
  · exact hx.1
  · exact hx.2

/-- C9: the canonical signature is `name ++ "(" ++ typeList ++ ")"` with
the type list empty or the single type name `bool`, and the derived
selector is exactly the first 4 bytes of the external hash of that
signature string, rendered as 8 lowercase hexadecimal characters
(stated for any digest of at least 4 bytes, each a byte value). -/
theorem c9_selector_derivation (hash : String → List Nat) (name : String)
    (params : ParameterList)
    (h4 : 4 ≤ (hash (sigString name params)).length)
    (hb : ∀ b ∈ hash (sigString name params), b < 256) :
    (paramsStr params = "" ∨ paramsStr params = "bool")
    ∧ find_function_signature hash name params
        = String.mk ((((hash (sigString name params)).take 4).map byteHex).flatten)
    ∧ (find_function_signature hash name params).length = 8
    ∧ ∀ ch ∈ (find_function_signature hash name params).data, isLowerHex ch = true := by
  refine ⟨?_, rfl, ?_, ?_⟩
  · cases params with
    | Param u1 po u2 =>
        cases po with
        | none => exact Or.inl rfl
        | some p =>
            obtain ⟨ty⟩ := p
            cases ty with
            | TypeExpr t =>
                cases t with
                | Bool u => exact Or.inr rfl
                | OtherTy u => exact Or.inl rfl
            | BoolLiteral v => exact Or.inl rfl
            | Variable i => exact Or.inl rfl
            | Assign a o b => exact Or.inl rfl
            | Not o e => exact Or.inl rfl
  · show ((((hash (sigString name params)).take 4).map byteHex).flatten).length = 8
    exact flatten_byteHex_length _ h4
  · show ∀ ch ∈ ((((hash (sigString name params)).take 4).map byteHex).flatten),
        isLowerHex ch = true
    intro ch hch
    refine mem_flatten_byteHex_isLowerHex _ ?_ ch hch
    intro b hbt
    exact hb b (List.take_subset 4 _ hbt)

theorem c9_selector_derivation_witness :
    find_function_signature hashW "foo" (.Param () none ())
        = String.mk ((((hashW (sigString "foo" (.Param () none ()))).take 4).map
            byteHex).flatten)
    ∧ (find_function_signature hashW "foo" (.Param () none ())).length = 8 :=
  ⟨(c9_selector_derivation hashW "foo" (.Param () none ()) (by decide) (by decide)).2.1,
   (c9_selector_derivation hashW "foo" (.Param () none ()) (by decide) (by decide)).2.2.1⟩

/-! ## Claim C10 — slot operands truncated mod 256 -/

theorem run_push1_sload (b : Nat) (hb : b < 256) (storage : ContractStorage)
    (h : b < storage.slots.length) :
    VM.run [OP.PUSH1 b, OP.SLOAD] storage
      = .ok (Stack.new.push32 (storage.slots.getD b 0)) storage := by
  have hmod : b % 2 ^ 64 = b := Nat.mod_eq_of_lt (lt_trans hb (by norm_num))
  have e1 : step ⟨[OP.PUSH1 b, OP.SLOAD], 0, Stack.new, storage⟩
      = .cont ⟨[OP.PUSH1 b, OP.SLOAD], 1, Stack.new.push32 b, storage⟩ := rfl
  have e2 : step ⟨[OP.PUSH1 b, OP.SLOAD], 1, Stack.new.push32 b, storage⟩
      = .cont ⟨[OP.PUSH1 b, OP.SLOAD], 2,
          (⟨(List.replicate 1024 (0 : Word)).set 0 b, 0⟩ : Stack).push32
            (storage.slots.getD b 0), storage⟩ := by
    unfold step
    rw [if_pos (by norm_num)]
    show (match (Stack.new.push32 b).pop with
          | some (key, st) =>
              if key % 2 ^ 64 < storage.slots.length then
                StepOut.cont ⟨[OP.PUSH1 b, OP.SLOAD], 1 + 1,
                  st.push32 (storage.slots.getD (key % 2 ^ 64) 0), storage⟩
              else StepOut.crash
          | none => StepOut.crash)
        = StepOut.cont ⟨[OP.PUSH1 b, OP.SLOAD], 2,
            (⟨(List.replicate 1024 (0 : Word)).set 0 b, 0⟩ : Stack).push32
              (storage.slots.getD b 0), storage⟩
    rw [pop_new_push32]
    show (if b % 2 ^ 64 < storage.slots.length then
            StepOut.cont ⟨[OP.PUSH1 b, OP.SLOAD], 1 + 1,
              (⟨(List.replicate 1024 (0 : Word)).set 0 b, 0⟩ : Stack).push32
                (storage.slots.getD (b % 2 ^ 64) 0), storage⟩
          else StepOut.crash) = _
    rw [hmod, if_pos h]
  have e3 : step ⟨[OP.PUSH1 b, OP.SLOAD], 2,
      (⟨(List.replicate 1024 (0 : Word)).set 0 b, 0⟩ : Stack).push32
        (storage.slots.getD b 0), storage⟩
      = .halt ((⟨(List.replicate 1024 (0 : Word)).set 0 b, 0⟩ : Stack).push32
          (storage.slots.getD b 0)) storage := rfl
  show runLoop 2 _ = _
  rw [runLoop_cont e1, runLoop_cont e2, runLoop_halted e3]
  congr 1

theorem run_push_sstore (b : Nat) (hb : b < 256) (v : Word) (storage : ContractStorage)
    (h : b < storage.slots.length) :
    (VM.run [OP.PUSH32 v, OP.PUSH1 b, OP.SSTORE] storage).storageOut
      = some ⟨storage.slots.set b v⟩ := by
  have hmod : b % 2 ^ 64 = b := Nat.mod_eq_of_lt (lt_trans hb (by norm_num))
  have hlen1 : (1 : Nat) < ((List.replicate 1024 (0 : Word)).set 0 v).length := by
    rw [List.length_set, List.length_replicate]
    norm_num
  have hpopB : (⟨((List.replicate 1024 (0 : Word)).set 0 v).set 1 b, 2⟩ : Stack).pop
      = some (b, ⟨((List.replicate 1024 (0 : Word)).set 0 v).set 1 b, 1⟩) := by
    have h1 := Stack.pop_mk (((List.replicate 1024 (0 : Word)).set 0 v).set 1 b) 1
    rw [getD_set_self _ 1 b hlen1] at h1
    exact h1
  have hpop1 : (⟨((List.replicate 1024 (0 : Word)).set 0 v).set 1 b, 1⟩ : Stack).pop
      = some (v, ⟨((List.replicate 1024 (0 : Word)).set 0 v).set 1 b, 0⟩) := by
    have h1 := Stack.pop_mk (((List.replicate 1024 (0 : Word)).set 0 v).set 1 b) 0
    rw [getD_set_ne _ 1 0 b (by norm_num)] at h1
    rw [getD_set_self _ 0 v (by rw [List.length_replicate]; norm_num)] at h1
    exact h1
  have e1 : step ⟨[OP.PUSH32 v, OP.PUSH1 b, OP.SSTORE], 0, Stack.new, storage⟩
      = .cont ⟨[OP.PUSH32 v, OP.PUSH1 b, OP.SSTORE], 1, Stack.new.push32 v, storage⟩ := rfl
  have e2 : step ⟨[OP.PUSH32 v, OP.PUSH1 b, OP.SSTORE], 1, Stack.new.push32 v, storage⟩
      = .cont ⟨[OP.PUSH32 v, OP.PUSH1 b, OP.SSTORE], 2,
          ⟨((List.replicate 1024 (0 : Word)).set 0 v).set 1 b, 2⟩, storage⟩ := rfl
  have e3 : step ⟨[OP.PUSH32 v, OP.PUSH1 b, OP.SSTORE], 2,
      ⟨((List.replicate 1024 (0 : Word)).set 0 v).set 1 b, 2⟩, storage⟩
      = .cont ⟨[OP.PUSH32 v, OP.PUSH1 b, OP.SSTORE], 3,
          ⟨((List.replicate 1024 (0 : Word)).set 0 v).set 1 b, 0⟩,
          ⟨storage.slots.set b v⟩⟩ := by
    unfold step
    rw [if_pos (by norm_num)]
    show (match (⟨((List.replicate 1024 (0 : Word)).set 0 v).set 1 b, 2⟩ : Stack).pop with
          | some (key, st1) =>
              match st1.pop with
              | some (val, st2) =>
                  if key % 2 ^ 64 < storage.slots.length then
                    StepOut.cont ⟨[OP.PUSH32 v, OP.PUSH1 b, OP.SSTORE], 2 + 1, st2,
                      ⟨storage.slots.set (key % 2 ^ 64) val⟩⟩
                  else StepOut.crash
              | none => StepOut.crash
          | none => StepOut.crash)
        = StepOut.cont ⟨[OP.PUSH32 v, OP.PUSH1 b, OP.SSTORE], 3,
            ⟨((List.replicate 1024 (0 : Word)).set 0 v).set 1 b, 0⟩,
            ⟨storage.slots.set b v⟩⟩
    rw [hpopB]
    show (match (⟨((List.replicate 1024 (0 : Word)).set 0 v).set 1 b, 1⟩ : Stack).pop with
          | some (val, st2) =>
              if b % 2 ^ 64 < storage.slots.length then
                StepOut.cont ⟨[OP.PUSH32 v, OP.PUSH1 b, OP.SSTORE], 2 + 1, st2,
                  ⟨storage.slots.set (b % 2 ^ 64) val⟩⟩
              else StepOut.crash
          | none => StepOut.crash) = _
    rw [hpop1]
    show (if b % 2 ^ 64 < storage.slots.length then
            StepOut.cont ⟨[OP.PUSH32 v, OP.PUSH1 b, OP.SSTORE], 2 + 1,
              ⟨((List.replicate 1024 (0 : Word)).set 0 v).set 1 b, 0⟩,
              ⟨storage.slots.set (b % 2 ^ 64) v⟩⟩
          else StepOut.crash) = _
    rw [hmod, if_pos h]
  have e4 : step ⟨[OP.PUSH32 v, OP.PUSH1 b, OP.SSTORE], 3,
      ⟨((List.replicate 1024 (0 : Word)).set 0 v).set 1 b, 0⟩,
      ⟨storage.slots.set b v⟩⟩
      = .halt ⟨((List.replicate 1024 (0 : Word)).set 0 v).set 1 b, 0⟩
          ⟨storage.slots.set b v⟩ := rfl
  show (runLoop 3 _).storageOut = _
  rw [runLoop_cont e1, runLoop_cont e2, runLoop_cont e3, runLoop_halted e4]
  rfl

/-- C10: lowering a variable reference or an assignment to a variable
emits `PUSH1` with the slot index truncated `% 256` (the `slot as u8`
cast); consequently a slot index of 256 or more is not representable —
the operand differs from the slot — and executing the emitted
`PUSH1`/`SLOAD` (resp. a push of a value followed by the emitted
`PUSH1`/`SSTORE`) reads (resp. writes) slot `s % 256` instead of slot
`s`. -/
theorem c10_slot_operand_truncated (c : Contract) (ident : Identifier)
    (rhs : Expression) (u : Unit) (storage : ContractStorage) (v : Word) :
    handle_expression (.Variable ident) c
        = [OP.PUSH1 (slotOf c ident % 256), OP.SLOAD]
    ∧ handle_expression (.Assign (.Variable ident) u rhs) c
        = handle_expression rhs c ++ [OP.PUSH1 (slotOf c ident % 256), OP.SSTORE]
    ∧ (256 ≤ slotOf c ident → slotOf c ident % 256 ≠ slotOf c ident)
    ∧ (slotOf c ident % 256 < storage.slots.length →
        VM.run [OP.PUSH1 (slotOf c ident % 256), OP.SLOAD] storage
          = .ok (Stack.new.push32 (storage.slots.getD (slotOf c ident % 256) 0)) storage)
    ∧ (slotOf c ident % 256 < storage.slots.length →
        (VM.run [OP.PUSH32 v, OP.PUSH1 (slotOf c ident % 256), OP.SSTORE]
            storage).storageOut
          = some ⟨storage.slots.set (slotOf c ident % 256) v⟩) := by
  refine ⟨rfl, rfl, ?_, ?_, ?_⟩
  · intro hge
    have hlt : slotOf c ident % 256 < 256 := Nat.mod_lt _ (by norm_num)
    omega
  · intro h
    exact run_push1_sload _ (Nat.mod_lt _ (by norm_num)) storage h
  · intro h
    exact run_push_sstore _ (Nat.mod_lt _ (by norm_num)) v storage h

theorem c10_slot_operand_truncated_witness :
    slotOf cSlot300 ⟨"x"⟩ % 256 ≠ slotOf cSlot300 ⟨"x"⟩
    ∧ VM.run [OP.PUSH1 (slotOf cSlot300 ⟨"x"⟩ % 256), OP.SLOAD] stor45
        = .ok (Stack.new.push32 (stor45.slots.getD (slotOf cSlot300 ⟨"x"⟩ % 256) 0)) stor45
    ∧ (VM.run [OP.PUSH32 9, OP.PUSH1 (slotOf cSlot300 ⟨"x"⟩ % 256), OP.SSTORE]
        stor45).storageOut = some ⟨stor45.slots.set (slotOf cSlot300 ⟨"x"⟩ % 256) 9⟩ :=
  ⟨(c10_slot_operand_truncated cSlot300 ⟨"x"⟩ (.BoolLiteral true) () stor45 9).2.2.1
      (by decide),
   (c10_slot_operand_truncated cSlot300 ⟨"x"⟩ (.BoolLiteral true) () stor45 9).2.2.2.1
      (by decide),
   (c10_slot_operand_truncated cSlot300 ⟨"x"⟩ (.BoolLiteral true) () stor45 9).2.2.2.2
      (by decide)⟩

end TinySol
